import Mathlib

/-!
Verification of the `pathlib` Go library (`src/path.go`) against its
natural-language specification.

Paths and mode strings are modelled as `List Char` (Go strings; every
character relevant to the path algebra is ASCII, so byte positions and
character positions coincide on the suffix arithmetic the code performs).
The host operating system and the Go standard library's filesystem calls
(`os.Stat`, `filepath.Abs`, `os.MkdirAll`, `filepath.Glob`, `os.OpenFile`)
are the external collaborators of the spec; they are modelled as an
oracle structure `OS`, with their documented guarantees taken as explicit
hypotheses of the theorems that need them.

The pure string functions (`filepath.Ext`, `strings.TrimSpace`,
`filepath.Clean`, `filepath.Join`, and the library's own `WithSuffix`
and `JoinPath`) are embedded directly from their source.
-/

namespace Pathlib

/-- Go `unicode.IsSpace`: the White_Space code points.  For Latin-1 these are
'\t', '\n', '\v', '\f', '\r', ' ', U+0085, U+00A0; above Latin-1 the
Unicode White_Space property set. -/
def goIsSpace (c : Char) : Bool :=
  c = ' ' ∨ c = '\t' ∨ c = '\n' ∨ c.toNat = 0x0B ∨ c.toNat = 0x0C ∨
  c = '\r' ∨ c.toNat = 0x85 ∨ c.toNat = 0xA0 ∨
  c.toNat = 0x1680 ∨ (0x2000 ≤ c.toNat ∧ c.toNat ≤ 0x200A) ∨
  c.toNat = 0x2028 ∨ c.toNat = 0x2029 ∨ c.toNat = 0x202F ∨
  c.toNat = 0x205F ∨ c.toNat = 0x3000

/-- Go `strings.TrimSpace`: drop leading and trailing white space. -/
def trimSpace (s : List Char) : List Char :=
  ((s.dropWhile goIsSpace).reverse.dropWhile goIsSpace).reverse

/-- The scanning loop of Go `filepath.Ext`: walk the path from its last
character towards the front (the argument is the reversed path), stopping
at a path separator (no extension) or at a dot (the extension is the dot
followed by the characters already passed, held in `acc` in source order). -/
def extAux : List Char → List Char → List Char
  | [], _ => []
  | c :: rest, acc =>
    if c = '/' then []
    else if c = '.' then c :: acc
    else extAux rest (c :: acc)

/-- Go `filepath.Ext`: the suffix of the final path element beginning at the
final dot; empty when the final element has no dot. -/
def goExt (p : List Char) : List Char :=
  extAux p.reverse []

/-- `Path.WithSuffix` from `src/path.go`: trim the requested suffix, compute
the existing extension with `filepath.Ext`, then follow the four-branch
policy of the source (append `.suffix`, replace keeping the dot, strip the
extension with its dot, or leave the path unchanged). -/
def withSuffix (p suffix : List Char) : List Char :=
  let suffix := trimSpace suffix
  let oldSuffix := goExt p
  if oldSuffix.length = 0 ∧ suffix.length = 0 then p
  else if oldSuffix.length = 0 ∧ 0 < suffix.length then p ++ '.' :: suffix
  else
    let oldSuffixLen := if 0 < suffix.length then oldSuffix.length - 1 else oldSuffix.length
    p.take (p.length - oldSuffixLen) ++ suffix

/-- The extension scanner only ever returns a suffix of the scanned text. -/
lemma extAux_isSuffix : ∀ (r acc : List Char), extAux r acc <:+ r.reverse ++ acc
  | [], acc => by simp [extAux]
  | c :: rest, acc => by
    simp only [extAux]
    by_cases h1 : c = '/'
    · simp [h1, List.nil_suffix]
    · by_cases h2 : c = '.'
      · simp only [h1, if_false, h2, if_true, List.reverse_cons, List.append_assoc,
          List.singleton_append]
        exact List.suffix_append _ _
      · simp only [h1, if_false, h2, List.reverse_cons, List.append_assoc,
          List.singleton_append]
        exact extAux_isSuffix rest (c :: acc)

/-- A nonempty result of the extension scanner starts with the dot. -/
lemma extAux_head : ∀ (r acc : List Char),
    extAux r acc = [] ∨ ∃ t, extAux r acc = '.' :: t
  | [], acc => by simp [extAux]
  | c :: rest, acc => by
    simp only [extAux]
    by_cases h1 : c = '/'
    · simp [h1]
    · by_cases h2 : c = '.'
      · exact Or.inr ⟨acc, by simp [h1, h2]⟩
      · simp only [h1, if_false, h2]
        exact extAux_head rest (c :: acc)

/-- Scanning stops at a path separator: everything before it is invisible. -/
lemma extAux_sep : ∀ (l : List Char) (acc r : List Char),
    extAux (l ++ '/' :: r) acc = extAux l acc
  | [], acc, r => by simp [extAux]
  | c :: rest, acc, r => by
    simp only [List.cons_append, extAux]
    by_cases h1 : c = '/'
    · simp [h1]
    · by_cases h2 : c = '.'
      · simp [h1, h2]
      · simpa [h1, h2] using extAux_sep rest (c :: acc) r

/-- `filepath.Ext` returns a suffix of the path. -/
lemma goExt_isSuffix (p : List Char) : goExt p <:+ p := by
  simpa [goExt] using extAux_isSuffix p.reverse []

/-- A nonempty `filepath.Ext` result starts with the dot. -/
lemma goExt_head (p : List Char) : goExt p = [] ∨ ∃ t, goExt p = '.' :: t :=
  extAux_head p.reverse []

/-- The extension depends only on the part after the last separator. -/
lemma goExt_sep (xs ys : List Char) : goExt (xs ++ '/' :: ys) = goExt ys := by
  have h : (xs ++ '/' :: ys).reverse = ys.reverse ++ '/' :: xs.reverse := by
    simp
  rw [goExt, h, extAux_sep, goExt]

example : goExt "a.old".toList = ".old".toList := by decide
example : goExt "a.b/c".toList = [] := by decide
example : goExt "a.".toList = ['.'] := by decide
example : withSuffix "a.old".toList "new".toList = "a.new".toList := by decide
example : withSuffix "a".toList "new".toList = "a.new".toList := by decide
example : withSuffix "a.old".toList "  ".toList = "a".toList := by decide
example : withSuffix "a".toList "".toList = "a".toList := by decide
example : withSuffix "d.old/a".toList "".toList = "d.old/a".toList := by decide

/-- A nonempty extension result exhibits the path as stem plus extension. -/
lemma goExt_stem (p old : List Char) (h : goExt p = '.' :: old) :
    ∃ stem, p = stem ++ '.' :: old := by
  obtain ⟨stem, hstem⟩ := goExt_isSuffix p
  exact ⟨stem, by rw [← hstem, h]⟩

/-- Policy row: no existing extension, nonempty trimmed suffix. -/
lemma withSuffix_append (p s : List Char) (h1 : goExt p = [])
    (h2 : trimSpace s ≠ []) : withSuffix p s = p ++ '.' :: trimSpace s := by
  have hslen : 0 < (trimSpace s).length := List.length_pos.mpr h2
  simp [withSuffix, h1, h2, hslen]

/-- Policy row: existing extension, nonempty trimmed suffix — replace the
text after the dot, keeping the dot. -/
lemma withSuffix_replace (p s old stem : List Char) (h : goExt p = '.' :: old)
    (hp : p = stem ++ '.' :: old) (hs : trimSpace s ≠ []) :
    withSuffix p s = stem ++ '.' :: trimSpace s := by
  have h0 : (goExt p).length = old.length + 1 := by rw [h]; rfl
  have hslen : 0 < (trimSpace s).length := List.length_pos.mpr hs
  have hcond : ¬((goExt p).length = 0) := by omega
  simp only [withSuffix, hcond, false_and, if_false, hslen, if_true]
  rw [h0]
  have hsplit : p = (stem ++ ['.']) ++ old := by rw [hp]; simp
  rw [hsplit]
  have hlen : ((stem ++ ['.']) ++ old).length - (old.length + 1 - 1)
      = (stem ++ ['.']).length := by simp; omega
  rw [hlen, List.take_left]
  simp

/-- Scanning a last segment built as `q ++ '.' :: t` with `t` free of dots
and separators finds exactly `'.' :: t` as the extension. -/
lemma extAux_pure : ∀ (l : List Char), ('.' ∉ l) → ('/' ∉ l) →
    ∀ (r acc : List Char), extAux (l ++ '.' :: r) acc = '.' :: (l.reverse ++ acc)
  | [], _, _, r, acc => by simp [extAux]
  | c :: rest, hdot, hsep, r, acc => by
    have hc1 : c ≠ '/' := fun hc => hsep (by simp [hc])
    have hc2 : c ≠ '.' := fun hc => hdot (by simp [hc])
    have hd : '.' ∉ rest := fun hm => hdot (List.mem_cons_of_mem _ hm)
    have hp : '/' ∉ rest := fun hm => hsep (List.mem_cons_of_mem _ hm)
    simp only [List.cons_append, extAux, hc1, if_false, hc2, List.append_eq]
    rw [extAux_pure rest hd hp r (c :: acc)]
    simp

/-- A path ending in `'.' :: t` with `t` free of dots and separators has
exactly `'.' :: t` as its extension. -/
lemma goExt_pure_append (q t : List Char) (hdot : '.' ∉ t) (hsep : '/' ∉ t) :
    goExt (q ++ '.' :: t) = '.' :: t := by
  have h : (q ++ '.' :: t).reverse = t.reverse ++ '.' :: q.reverse := by simp
  rw [goExt, h, extAux_pure t.reverse (by simpa using hdot) (by simpa using hsep)]
  simp

/-- C1: `WithSuffix` follows the spec's policy table after trimming white
space from the requested suffix: no extension and empty trimmed suffix
leaves the path unchanged; no extension and nonempty suffix appends
`.suffix`; an existing extension and nonempty suffix replaces the old
extension text keeping its dot; an existing extension and empty trimmed
suffix strips the extension including its dot.  Only the final extension
of the last path segment counts: a dot before the last separator is never
treated as an extension. -/
theorem C1_withSuffix_policy (p s : List Char) :
    (goExt p = [] → trimSpace s = [] → withSuffix p s = p) ∧
    (goExt p = [] → trimSpace s ≠ [] → withSuffix p s = p ++ '.' :: trimSpace s) ∧
    (∀ old, goExt p = '.' :: old → trimSpace s ≠ [] →
      ∃ stem, p = stem ++ '.' :: old ∧ withSuffix p s = stem ++ '.' :: trimSpace s) ∧
    (goExt p ≠ [] → trimSpace s = [] →
      ∃ stem, p = stem ++ goExt p ∧ withSuffix p s = stem) ∧
    (∀ xs ys, p = xs ++ '/' :: ys → goExt p = goExt ys) := by
  refine ⟨?_, ?_, ?_, ?_, ?_⟩
  · intro h1 h2
    simp [withSuffix, h1, h2]
  · intro h1 h2
    exact withSuffix_append p s h1 h2
  · intro old h hs
    obtain ⟨stem, hp⟩ := goExt_stem p old h
    exact ⟨stem, hp, withSuffix_replace p s old stem h hp hs⟩
  · intro h hs
    obtain ⟨stem, hstem⟩ := goExt_isSuffix p
    refine ⟨stem, hstem.symm, ?_⟩
    have h0 : ¬((goExt p).length = 0) := by
      simpa [List.length_eq_zero] using h
    have hnpos : ¬(0 < (trimSpace s).length) := by rw [hs]; simp
    have hplen : p.length = stem.length + (goExt p).length := by
      conv_lhs => rw [← hstem]
      simp
    have htake : p.length - (goExt p).length = stem.length := by omega
    simp only [withSuffix, h0, false_and, if_false, hnpos, hs, List.length_nil,
      Nat.lt_irrefl, List.append_nil]
    rw [htake]
    conv_lhs => rw [← hstem]
    exact List.take_left stem (goExt p)
  · intro xs ys hp
    rw [hp]
    exact goExt_sep xs ys

/-- Witness for C1: replacing the (absent) extension of `a` by `x`. -/
theorem C1_witness : withSuffix "a".toList "x".toList = "a.x".toList := by
  have h := (C1_withSuffix_policy "a".toList "x".toList).2.1 (by decide) (by decide)
  rw [h]
  decide

/-- C6 counterexample: the suffix `"x.y"` is non-empty, yet applying
`WithSuffix` twice with it differs from applying it once
(`"a"` becomes `"a.x.y"`, then `"a.x.x.y"`). -/
theorem C6_counterexample :
    "x.y".toList ≠ [] ∧
    withSuffix (withSuffix "a".toList "x.y".toList) "x.y".toList
      ≠ withSuffix "a".toList "x.y".toList := by decide

/-- C6 amended: for a suffix whose trimmed form is non-empty and contains
neither a dot nor a path separator, `WithSuffix` composed with itself using
the same suffix is idempotent. -/
theorem C6_withSuffix_idempotent (p s : List Char) (hs : trimSpace s ≠ [])
    (hdot : '.' ∉ trimSpace s) (hsep : '/' ∉ trimSpace s) :
    withSuffix (withSuffix p s) s = withSuffix p s := by
  rcases goExt_head p with h | ⟨old, h⟩
  · have w1 : withSuffix p s = p ++ '.' :: trimSpace s :=
      withSuffix_append p s h hs
    have hext : goExt (p ++ '.' :: trimSpace s) = '.' :: trimSpace s :=
      goExt_pure_append p (trimSpace s) hdot hsep
    have w2 : withSuffix (p ++ '.' :: trimSpace s) s = p ++ '.' :: trimSpace s :=
      withSuffix_replace _ s (trimSpace s) p hext rfl hs
    rw [w1, w2]
  · obtain ⟨stem, hp⟩ := goExt_stem p old h
    have w1 : withSuffix p s = stem ++ '.' :: trimSpace s :=
      withSuffix_replace p s old stem h hp hs
    have hext : goExt (stem ++ '.' :: trimSpace s) = '.' :: trimSpace s :=
      goExt_pure_append stem (trimSpace s) hdot hsep
    have w2 : withSuffix (stem ++ '.' :: trimSpace s) s
        = stem ++ '.' :: trimSpace s :=
      withSuffix_replace _ s (trimSpace s) stem hext rfl hs
    rw [w1, w2]

/-- Witness for the amended C6 at `p = "a.b"`, `s = "c"`. -/
theorem C6_witness :
    withSuffix (withSuffix "a.b".toList "c".toList) "c".toList
      = withSuffix "a.b".toList "c".toList :=
  C6_withSuffix_idempotent "a.b".toList "c".toList (by decide) (by decide) (by decide)

/-!
`filepath.Clean` (Unix rules: separator `'/'`, no volume names), embedded
from its source.  The output buffer is kept reversed (`out`), so `out.length`
plays the role of the writer index `out.w`.  The source's inner
element-copying loop is expressed through the `atStart` flag: the main loop
visits every character, and the `.`/`..`-element tests — which in the source
only ever run with the scanner positioned at the start of an element — are
guarded by `atStart`, which is true exactly at those positions.
-/

/-- The `..` backtracking loop of `filepath.Clean`: keep removing the last
buffered character while the writer index exceeds `dotdot` and the character
just removed (`last`) is not a separator. -/
def backtrack (dotdot : Nat) : List Char → Char → List Char
  | [], _ => []
  | c :: rest, last =>
    if dotdot < (c :: rest).length ∧ ¬(last = '/') then backtrack dotdot rest c
    else c :: rest

/-- The `..`-element case of `filepath.Clean`: backtrack when the buffer
extends past `dotdot`; otherwise, when not rooted, append a literal `..`
element and move `dotdot` to the new writer index; when rooted, do nothing. -/
def dotdotStep (rooted : Bool) (out : List Char) (dotdot : Nat) : List Char × Nat :=
  if dotdot < out.length then
    match out with
    | [] => ([], dotdot)
    | c0 :: r0 => (backtrack dotdot r0 c0, dotdot)
  else if rooted then (out, dotdot)
  else
    let o := if 0 < out.length then '.' :: '.' :: '/' :: out else ['.', '.']
    (o, o.length)

/-- At the start of a real path element, `filepath.Clean` writes a separator
unless the buffer is at its initial writer position (1 when rooted, 0
otherwise). -/
def defaultSep (rooted atStart : Bool) (out : List Char) : List Char :=
  if atStart ∧ ((rooted ∧ out.length ≠ 1) ∨ (¬rooted ∧ out.length ≠ 0)) then '/' :: out
  else out

/-- The scanning loop of `filepath.Clean`: skip separators and `.` elements,
handle `..` elements through `dotdotStep`, and copy every other element
character by character (writing the leading separator via `defaultSep` at
element starts only). -/
def cleanLoop (rooted : Bool) : List Char → Bool → List Char → Nat → List Char
  | [], _, out, _ => out
  | c :: [], atStart, out, dotdot =>
    if c = '/' then cleanLoop rooted [] true out dotdot
    else if atStart ∧ c = '.' then cleanLoop rooted [] false out dotdot
    else cleanLoop rooted [] false (c :: defaultSep rooted atStart out) dotdot
  | c :: d :: rest2, atStart, out, dotdot =>
    if c = '/' then cleanLoop rooted (d :: rest2) true out dotdot
    else if atStart ∧ c = '.' ∧ d = '/' then
      cleanLoop rooted (d :: rest2) false out dotdot
    else if atStart ∧ c = '.' ∧ d = '.' ∧ (rest2.head? = none ∨ rest2.head? = some '/') then
      cleanLoop rooted rest2 false (dotdotStep rooted out dotdot).1
        (dotdotStep rooted out dotdot).2
    else cleanLoop rooted (d :: rest2) false (c :: defaultSep rooted atStart out) dotdot

/-- Go `filepath.Clean` on Unix: empty input becomes `.`; a rooted path
seeds the buffer with the separator and writer index 1; an empty result
becomes `.`. -/
def goClean (path : List Char) : List Char :=
  match path with
  | [] => ['.']
  | c :: rest =>
    let out :=
      if c = '/' then cleanLoop true rest true ['/'] 1
      else cleanLoop false (c :: rest) true [] 0
    if out.length = 0 then ['.'] else out.reverse

/-- Go `filepath.Join` restricted to two arguments, as invoked by
`Path.JoinPath`: the first non-empty argument starts the separator-joined
string, which is then cleaned; all-empty input yields the empty path. -/
def goJoin2 (a b : List Char) : List Char :=
  if a ≠ [] then goClean (a ++ '/' :: b)
  else if b ≠ [] then goClean b
  else []

/-- `Path.JoinPath` from `src/path.go`: fold `filepath.Join` over the
argument list, starting from the receiver. -/
def joinPath (p : List Char) (paths : List (List Char)) : List Char :=
  paths.foldl goJoin2 p

example : goClean "/tmp//foo".toList = "/tmp/foo".toList := by decide
example : goClean "a/..".toList = ".".toList := by decide
example : goClean "/..".toList = "/".toList := by decide
example : goClean "..".toList = "..".toList := by decide
example : goClean "../../x".toList = "../../x".toList := by decide
example : goClean "./a/".toList = "a".toList := by decide
example : goClean "/a/../../b".toList = "/b".toList := by decide
example : goClean "a/b/../c".toList = "a/c".toList := by decide
example : goClean "".toList = ".".toList := by decide
example : goClean "a/./b".toList = "a/b".toList := by decide
example : goClean "..a/b".toList = "..a/b".toList := by decide
example : goJoin2 "/tmp/".toList "foo".toList = "/tmp/foo".toList := by decide
example : goJoin2 "/tmp".toList "/etc".toList = "/tmp/etc".toList := by decide
example : joinPath "/tmp/".toList ["foo".toList, "bar".toList]
    = "/tmp/foo/bar".toList := by decide

/-- The head of `l ++ x :: y` does not depend on `y`. -/
lemma head?_append_cons (l : List Char) (x : Char) (y : List Char) :
    (l ++ x :: y).head? = some (l.headD x) := by
  cases l <;> simp

/-- A separator at the scanner head restarts the loop at an element
boundary, regardless of the current flag. -/
lemma cleanLoop_sep (rooted : Bool) (x : List Char) (s : Bool)
    (out : List Char) (dd : Nat) :
    cleanLoop rooted ('/' :: x) s out dd = cleanLoop rooted x true out dd := by
  cases x <;> simp [cleanLoop]

/-- Doubled separators are invisible to `filepath.Clean`'s scanning loop. -/
lemma cleanLoop_slash_irrel : ∀ (n : Nat) (u : List Char), u.length ≤ n →
    ∀ (rooted atStart : Bool) (out : List Char) (dd : Nat) (b : List Char),
    cleanLoop rooted (u ++ '/' :: '/' :: b) atStart out dd
      = cleanLoop rooted (u ++ '/' :: b) atStart out dd := by
  intro n
  induction n with
  | zero =>
    intro u hu rooted atStart out dd b
    have hu0 : u = [] := List.length_eq_zero.mp (Nat.le_zero.mp hu)
    subst hu0
    simp only [List.nil_append, cleanLoop_sep]
  | succ n ih =>
    intro u hu rooted atStart out dd b
    rcases u with _ | ⟨c, u'⟩
    · simp only [List.nil_append, cleanLoop_sep]
    · have hu1 : u'.length ≤ n := by simp at hu; omega
      by_cases hc : c = '/'
      · subst hc
        simp only [List.cons_append, cleanLoop_sep]
        exact ih u' hu1 rooted true out dd b
      · rcases u' with _ | ⟨e, u''⟩
        · have hne : ¬(('/' : Char) = '.') := by decide
          simp only [List.nil_append, List.cons_append, cleanLoop, hc, if_false,
            hne, false_and, and_false, eq_self_iff_true, and_true]
          split_ifs with h1
          · simp only [cleanLoop_sep]
          · simp only [cleanLoop_sep]
        · have hu2 : u''.length ≤ n := by simp at hu; omega
          simp only [List.cons_append, List.append_eq, cleanLoop, hc, if_false,
            head?_append_cons]
          split_ifs with h1 h2
          · simpa using ih (e :: u'') hu1 rooted false out dd b
          · simpa using ih u'' hu2 rooted false _ _ b
          · simpa using ih (e :: u'') hu1 rooted false _ dd b

/-- C7: `JoinPath` concatenates components as segments with the host
separator: `JoinPath("/tmp/", "foo", "bar") = "/tmp/foo/bar"` and
`JoinPath(JoinPath("foo"), "bar") = "foo/bar"`; an absolute-looking
component is still appended as a segment (`JoinPath("/tmp", "/etc") =
"/tmp/etc"`), and in general joining `'/' :: b` onto a non-empty receiver
gives the same result as joining `b` — no POSIX absolute-override. -/
theorem C7_joinPath (a b : List Char) :
    joinPath "/tmp/".toList ["foo".toList, "bar".toList] = "/tmp/foo/bar".toList ∧
    joinPath (joinPath "foo".toList []) ["bar".toList] = "foo/bar".toList ∧
    joinPath "/tmp".toList ["/etc".toList] = "/tmp/etc".toList ∧
    (a ≠ [] → goJoin2 a ('/' :: b) = goJoin2 a b) := by
  refine ⟨by decide, by decide, by decide, ?_⟩
  intro ha
  rcases a with _ | ⟨c, a'⟩
  · exact absurd rfl ha
  · simp only [goJoin2, ne_eq, reduceCtorEq, not_false_iff, if_true,
      List.cons_append]
    have h1 := cleanLoop_slash_irrel a'.length a' le_rfl true true ['/'] 1 b
    have h2 := cleanLoop_slash_irrel (c :: a').length (c :: a') le_rfl false true [] 0 b
    simp only [goClean]
    by_cases hc : c = '/'
    · simp only [hc, if_true, eq_self_iff_true]
      rw [h1]
    · simp only [hc, if_false]
      rw [show c :: (a' ++ '/' :: '/' :: b) = (c :: a') ++ '/' :: '/' :: b from rfl,
        show c :: (a' ++ '/' :: b) = (c :: a') ++ '/' :: b from rfl, h2]

/-- Witness for C7 at the receiver `/tmp` and component `etc`. -/
theorem C7_witness :
    goJoin2 "/tmp".toList ('/' :: "etc".toList) = goJoin2 "/tmp".toList "etc".toList :=
  (C7_joinPath "/tmp".toList "etc".toList).2.2.2 (by decide)

/-!
The host platform.  The Go standard library's filesystem surface
(`filepath.Abs`, `os.Stat`, `os.MkdirAll`, `filepath.Glob`, `os.OpenFile`,
`os.Create`, `File.Write`) is the external collaborator of the spec; it is
modelled as an oracle structure.  `abs` is `filepath.Abs` (`none` = error);
`fs` is the filesystem keyed by the absolute path handed to the kernel,
with `fs q = none` covering every `os.Stat` failure (non-existence,
permission denied, invalid path) exactly as a single Go error value does;
`umask` is the process umask; `globFn` is `filepath.Glob` (`none` =
pattern error); `openFile` is `os.OpenFile` (`none` = error).
-/

/-- Filesystem entry kinds as classified by `os.FileMode`: a directory or
a regular file, each carrying its permission bits, or another entry kind. -/
inductive Entry : Type
  | dir (perm : Nat)
  | file (perm : Nat)
  | other
deriving DecidableEq

/-- The platform oracle. -/
structure OS where
  abs : List Char → Option (List Char)
  fs : List Char → Option Entry
  umask : Nat
  globFn : List Char → Option (List (List Char))
  openFile : List Char → Nat → Nat → Option Nat

/-- `filepath.Abs` followed by `os.Stat`, the prelude of every query in
`path.go`; `none` is any error on either step. -/
def statAbs (w : OS) (p : List Char) : Option Entry :=
  match w.abs p with
  | none => none
  | some a => w.fs a

/-- `Path.Exists` from `src/path.go`: false on any `Abs` or `Stat` error. -/
def pathExists (w : OS) (p : List Char) : Bool :=
  (statAbs w p).isSome

/-- `Path.IsDir` from `src/path.go`: false on any error or non-directory. -/
def isDir (w : OS) (p : List Char) : Bool :=
  match statAbs w p with
  | some (.dir _) => true
  | _ => false

/-- `Path.IsFile` from `src/path.go`: false on any error or non-regular
entry. -/
def isFile (w : OS) (p : List Char) : Bool :=
  match statAbs w p with
  | some (.file _) => true
  | _ => false

/-- `Path.Resolve` from `src/path.go`: absolutise, then require the
resolved path to exist (re-running the `Exists` query on it); on any
failure return the original path together with an error. -/
def resolve (w : OS) (p : List Char) : List Char × Option String :=
  match w.abs p with
  | none => (p, some "abs error")
  | some a =>
    if pathExists w a then (a, none)
    else (p, some "Cannot resolve path that does not exist")

/-- Ancestor chain of a path, shortest first, ending with the path itself:
`/a/b` gives `[/a, /a/b]`, `a/b` gives `[a, a/b]`. -/
def chainFrom (base : List Char) : List (List Char) → List (List Char)
  | [] => []
  | seg :: rest => (base ++ '/' :: seg) :: chainFrom (base ++ '/' :: seg) rest

/-- All ancestor paths of a path, the path itself included. -/
def prefixChain (p : List Char) : List (List Char) :=
  match (p.splitOn '/').filter (fun s => !s.isEmpty) with
  | [] => []
  | seg :: rest =>
    if p.head? = some '/' then chainFrom [] (seg :: rest)
    else seg :: chainFrom seg rest

/-- Permission bits after the process umask clears its bits. -/
def applyUmask (perm umask : Nat) : Nat :=
  perm &&& (0o777 ^^^ (umask &&& 0o777))

/-- Modelled from the documented behavior of `os.MkdirAll` (Go standard
library, external to this repository): resolve the path, then create every
member of its ancestor chain that does not yet exist as a directory with
the given permission bits masked by the process umask; fail when an
existing chain member is not a directory (and on resolution failure). -/
def mkdirAll (w : OS) (p : List Char) (perm : Nat) : Option OS :=
  match w.abs p with
  | none => none
  | some a =>
    let anc := prefixChain a
    if anc.all (fun q => match w.fs q with
        | some (.dir _) => true
        | none => true
        | _ => false) then
      some { w with fs := (fun q =>
        if q ∈ anc ∧ w.fs q = none then some (.dir (applyUmask perm w.umask))
        else w.fs q) }
    else none

/-- `Path.Mkdir` from `src/path.go`: error (filesystem untouched) when the
path already exists; otherwise `os.MkdirAll(path, 0755)` (umask applies). -/
def mkdir (w : OS) (p : List Char) : OS × Option String :=
  if pathExists w p then (w, some "Cannot make directory because it already exists")
  else
    match mkdirAll w p 0o755 with
    | none => (w, some "mkdirAll error")
    | some w' => (w', none)

/-- `Path.Glob` from `src/path.go`: error unless the receiver is an
existing directory; otherwise absolutise, join the pattern onto the
absolute path with `filepath.Join`, and return the glob matches. -/
def glob (w : OS) (p pattern : List Char) : Except String (List (List Char)) :=
  if ¬ isDir w p then .error "Glob only works on directories"
  else match w.abs p with
    | none => .error "abs error"
    | some absPath =>
      match w.globFn (goJoin2 absPath pattern) with
      | none => .error "glob error"
      | some ms => .ok ms

example : prefixChain "/a/b".toList = ["/a".toList, "/a/b".toList] := by decide
example : prefixChain "a/b".toList = ["a".toList, "a/b".toList] := by decide
example : prefixChain "/".toList = [] := by decide

/-- Go `os.O_RDONLY` on Linux. -/
def O_RDONLY : Nat := 0

/-- Go `os.O_WRONLY` on Linux. -/
def O_WRONLY : Nat := 1

/-- Go `os.O_RDWR` on Linux. -/
def O_RDWR : Nat := 2

/-- Go `os.O_APPEND` on Linux. -/
def O_APPEND : Nat := 1024

/-- Go `os.O_CREATE` on Linux. -/
def O_CREATE : Nat := 64

/-- The sequential base-flag selection of `OpenWithPermissions`: default
read-only, overridden by the presence of `r` and `w` in the mode string. -/
def baseFlag (mode : List Char) : Nat :=
  if 'r' ∈ mode ∧ 'w' ∈ mode then O_RDWR
  else if 'r' ∈ mode then O_RDONLY
  else if 'w' ∈ mode then O_WRONLY
  else O_RDONLY

/-- The full flag computation of `OpenWithPermissions`: base flag, then
`O_APPEND` OR'd in when the mode contains `+`, then `O_CREATE` OR'd in
when the path does not currently exist. -/
def openFlags (mode : List Char) (existsB : Bool) : Nat :=
  let flag := baseFlag mode
  let flag := if '+' ∈ mode then flag ||| O_APPEND else flag
  if existsB = false then flag ||| O_CREATE else flag

/-- `Path.OpenWithPermissions` from `src/path.go`: error when the path is
a directory; otherwise `os.OpenFile` with the computed flags. -/
def openWithPermissions (w : OS) (p mode : List Char) (perms : Nat) :
    Except String Nat :=
  if isDir w p then .error "Cannot open because it is a directory"
  else match w.openFile p (openFlags mode (pathExists w p)) perms with
    | none => .error "open error"
    | some h => .ok h

/-- Events observable at the platform boundary while `WriteBytes` runs. -/
inductive Ev : Type
  | create (ok : Bool)
  | write (ok : Bool)
  | close
deriving DecidableEq

/-- `Path.WriteBytes` from `src/path.go` with its `defer outfile.Close()`
made explicit: the trace lists the platform calls in order; the close
registered by `defer` right after a successful create runs at every
return.  `createOk` and `writeOk` are the outcomes the platform gives to
`os.Create` and `File.Write`. -/
def writeBytes (createOk writeOk : Bool) : List Ev × Option String :=
  if ¬ createOk then ([Ev.create false], some "create error")
  else
    let deferred := [Ev.close]
    if ¬ writeOk then ([Ev.create true, Ev.write false] ++ deferred, some "write error")
    else ([Ev.create true, Ev.write true] ++ deferred, none)

/-!  Concrete platforms used by the witnesses.  -/

/-- A platform where absolute resolution always fails. -/
def wErr : OS :=
  { abs := fun _ => none, fs := fun _ => none, umask := 0o022,
    globFn := fun _ => none, openFile := fun _ _ _ => none }

/-- An empty filesystem whose resolver is the identity. -/
def wEmpty : OS :=
  { abs := fun q => some q, fs := fun _ => none, umask := 0o022,
    globFn := fun _ => none, openFile := fun _ _ _ => none }

/-- A platform holding the directory `/d` and the file `/d/a.conf`; its
glob oracle answers the pattern `/d/*.conf` with that file. -/
def wSample : OS :=
  { abs := fun q => some q,
    fs := fun q =>
      if q = "/d".toList then some (.dir 0o755)
      else if q = "/d/a.conf".toList then some (.file 0o644)
      else none,
    umask := 0o022,
    globFn := fun pat =>
      if pat = "/d/*.conf".toList then some ["/d/a.conf".toList] else some [],
    openFile := fun _ f _ => some f }

/-- C3: `Resolve` succeeds exactly when absolute resolution succeeds and
the resolved path exists; every error case returns the original path; a
successful call returns the absolute form with no error. -/
theorem C3_resolve (w : OS) (p : List Char) :
    ((resolve w p).2 = none ↔ ∃ a, w.abs p = some a ∧ pathExists w a = true) ∧
    ((resolve w p).2 ≠ none → (resolve w p).1 = p) ∧
    (∀ a, w.abs p = some a → pathExists w a = true → resolve w p = (a, none)) := by
  rcases habs : w.abs p with _ | a
  · simp [resolve, habs]
  · by_cases hex : pathExists w a = true
    · simp [resolve, habs, hex]
    · simp [resolve, habs, hex]

/-- Witness for C3: on an empty filesystem `Resolve` errors and hands back
the original path. -/
theorem C3_witness : (resolve wEmpty "/x".toList).1 = "/x".toList :=
  (C3_resolve wEmpty "/x".toList).2.1 (by decide)

/-- C4: the boolean queries collapse every failure — of absolute
resolution or of the stat call (non-existence, permission denied, invalid
path are all `fs = none` in the model) — into `false`, for all three of
`Exists`, `IsDir`, `IsFile`. -/
theorem C4_queries_collapse (w : OS) (p : List Char)
    (h : w.abs p = none ∨ ∃ a, w.abs p = some a ∧ w.fs a = none) :
    pathExists w p = false ∧ isDir w p = false ∧ isFile w p = false := by
  have hs : statAbs w p = none := by
    rcases h with h | ⟨a, ha, hf⟩
    · simp [statAbs, h]
    · simp [statAbs, ha, hf]
  simp [pathExists, isDir, isFile, hs]

/-- Witness for C4 on a platform whose resolver always fails. -/
theorem C4_witness :
    pathExists wErr "x".toList = false ∧ isDir wErr "x".toList = false ∧
    isFile wErr "x".toList = false :=
  C4_queries_collapse wErr "x".toList (Or.inl rfl)

/-- C2: `Mkdir` on an existing path errors and leaves the filesystem
unchanged; on a non-existing path, when it succeeds, every member of the
resolved path's ancestor chain is a directory afterwards, the previously
missing ones having been created with mode `0755` masked by the process
umask, and the path itself is a directory. -/
theorem C2_mkdir (w : OS) (p a : List Char) :
    (pathExists w p = true → (mkdir w p).2 ≠ none ∧ (mkdir w p).1 = w) ∧
    (pathExists w p = false → w.abs p = some a → (mkdir w p).2 = none →
      (∀ q ∈ prefixChain a, ∃ pm, (mkdir w p).1.fs q = some (.dir pm)) ∧
      (∀ q ∈ prefixChain a, w.fs q = none →
        (mkdir w p).1.fs q = some (.dir (applyUmask 0o755 w.umask))) ∧
      (a ∈ prefixChain a → isDir (mkdir w p).1 p = true)) := by
  constructor
  · intro h
    simp [mkdir, h]
  · intro hex habs hok
    have hfa : w.fs a = none := by
      rcases hst : statAbs w p with _ | e
      · rw [statAbs, habs] at hst
        exact hst
      · rw [pathExists, hst] at hex
        simp at hex
    rcases hall : mkdirAll w p 0o755 with _ | w'
    · rw [mkdir, if_neg (by simp [hex]), hall] at hok
      simp at hok
    · have hm : mkdir w p = (w', none) := by
        rw [mkdir, if_neg (by simp [hex]), hall]
      rw [hm]
      simp only [mkdirAll, habs] at hall
      split at hall
      case isTrue hc =>
        have hw' := Option.some.inj hall
        subst hw'
        refine ⟨?_, ?_, ?_⟩
        · intro q hq
          rcases hfq : w.fs q with _ | e
          · exact ⟨applyUmask 0o755 w.umask, by simp [hq, hfq]⟩
          · rcases e with pm | pm | _
            · exact ⟨pm, by simp [hfq]⟩
            · exfalso
              have hx := List.all_eq_true.mp hc q hq
              rw [hfq] at hx
              simp at hx
            · exfalso
              have hx := List.all_eq_true.mp hc q hq
              rw [hfq] at hx
              simp at hx
        · intro q hq hfq
          simp [hq, hfq]
        · intro hmem
          simp only [isDir, statAbs, habs]
          simp [hmem, hfa]
      case isFalse hc =>
        simp at hall

/-- Witness for C2: on an empty filesystem, `Mkdir("/a/b")` succeeds and
makes `/a/b` a directory. -/
theorem C2_witness :
    isDir (mkdir wEmpty "/a/b".toList).1 "/a/b".toList = true := by
  have h := (C2_mkdir wEmpty "/a/b".toList "/a/b".toList).2
    (by decide) (by decide) (by decide)
  exact h.2.2 (by decide)

/-- C8: `Glob` errors when the receiver is not an existing directory;
otherwise, with the glob oracle answering the pattern joined onto the
resolved absolute path — its results being, per the platform contract,
existing paths fixed by absolute resolution — `Glob` returns exactly those
results and each of them resolves to itself. -/
theorem C8_glob (w : OS) (p pattern a : List Char) (ms : List (List Char)) :
    (isDir w p = false → ∃ e, glob w p pattern = .error e) ∧
    (isDir w p = true → w.abs p = some a →
      w.globFn (goJoin2 a pattern) = some ms →
      (∀ m ∈ ms, w.abs m = some m ∧ w.fs m ≠ none) →
      glob w p pattern = .ok ms ∧
      ∀ m ∈ ms, resolve w m = (m, none)) := by
  constructor
  · intro h
    exact ⟨"Glob only works on directories", by simp [glob, h]⟩
  · intro hdir habs hglob hcontract
    refine ⟨by simp [glob, hdir, habs, hglob], ?_⟩
    intro m hm
    obtain ⟨ham, hfm⟩ := hcontract m hm
    have hex : pathExists w m = true := by
      rw [pathExists, statAbs, ham]
      exact Option.isSome_iff_ne_none.mpr hfm
    simp [resolve, ham, hex]

/-- Witness for C8: globbing `*.conf` in `/d` returns the absolute
`/d/a.conf`. -/
theorem C8_witness :
    glob wSample "/d".toList "*.conf".toList = .ok ["/d/a.conf".toList] :=
  ((C8_glob wSample "/d".toList "*.conf".toList "/d".toList
    ["/d/a.conf".toList]).2 (by decide) (by decide) (by decide) (by decide)).1

/-- C5: opening a directory errors; the mode string translates to the
access flags of the spec's table (`r` and `w` → read-write, `r` →
read-only, `w` → write-only), `+` ORs in the append flag and a
non-existing path ORs in the create flag. -/
theorem C5_open_flags (w : OS) (p mode : List Char) (perms : Nat) :
    (isDir w p = true → ∃ e, openWithPermissions w p mode perms = .error e) ∧
    ('r' ∈ mode → 'w' ∈ mode → baseFlag mode = O_RDWR) ∧
    ('r' ∈ mode → 'w' ∉ mode → baseFlag mode = O_RDONLY) ∧
    ('w' ∈ mode → 'r' ∉ mode → baseFlag mode = O_WRONLY) ∧
    (openFlags mode (pathExists w p)
      = (baseFlag mode ||| (if '+' ∈ mode then O_APPEND else 0))
        ||| (if pathExists w p then 0 else O_CREATE)) := by
  refine ⟨?_, ?_, ?_, ?_, ?_⟩
  · intro h
    exact ⟨"Cannot open because it is a directory", by simp [openWithPermissions, h]⟩
  · intro h1 h2
    simp [baseFlag, h1, h2]
  · intro h1 h2
    simp [baseFlag, h1, h2]
  · intro h1 h2
    simp [baseFlag, h1, h2]
  · rw [openFlags]
    by_cases hp : '+' ∈ mode <;> by_cases he : pathExists w p = true <;>
      simp [hp, he, Nat.or_zero]

/-- Witness for C5: opening the directory `/d` fails. -/
theorem C5_witness :
    ∃ e, openWithPermissions wSample "/d".toList "rw".toList 0o755 = .error e :=
  (C5_open_flags wSample "/d".toList "rw".toList 0o755).1 (by decide)

/-- C10: a mode string containing neither `r` nor `w` falls back to the
read-only base access flag. -/
theorem C10_base_flag_default (mode : List Char) (h1 : 'r' ∉ mode)
    (h2 : 'w' ∉ mode) : baseFlag mode = O_RDONLY := by
  simp [baseFlag, h1, h2]

/-- Witness for C10: the mode `"+"` yields the read-only base flag. -/
theorem C10_witness : baseFlag "+".toList = O_RDONLY :=
  C10_base_flag_default "+".toList (by decide) (by decide)

/-- C9: once the create/truncate succeeded, `WriteBytes` closes the handle
before returning on every exit path — the trace ends with the close both
when the write succeeds and when it fails (and the write error is still
reported). -/
theorem C9_writeBytes_close (createOk writeOk : Bool) (h : createOk = true) :
    ((writeBytes createOk writeOk).1.getLast? = some Ev.close) ∧
    (writeOk = false → (writeBytes createOk writeOk).2 ≠ none) ∧
    (writeOk = true → (writeBytes createOk writeOk).2 = none) := by
  subst h
  cases writeOk <;> simp [writeBytes]

/-- Witness for C9: the failing-write execution still ends in a close. -/
theorem C9_witness : (writeBytes true false).1.getLast? = some Ev.close :=
  (C9_writeBytes_close true false rfl).1

end Pathlib
